import Mathlib

/-!
Peer metrics reporter (`metrics/node/metrics.go`)

A shallow embedding of the peer metrics reporter of status-go and the proofs of
its specification.

Modelling conventions.

* A Go `string` is a sequence of bytes, `GoString`; a peer name is chosen by
  the remote peer and need not be valid UTF-8. `strings.Split(name, "/")` cuts
  at every occurrence of the byte `0x2F`.
* A Go `error` is an `Option String` (`none` is `nil`, `some msg` is
  `errors.New(msg)`); a Go result pair `(value, error)` where exactly one side
  is `nil` is an `Except String value`.
* A call may panic: `GaugeVec.With` of the metrics library panics on a label
  value that is not valid UTF-8. An `Outcome` records whether a call returned
  and the metric objects as it left them.
* A gauge holds a `float64`. The gauges of this file start at 0 and receive
  only converted integers and the deltas `1`, `-1`, `0`, so every value they
  hold is an integer-valued `float64`; it is written as the `Int` it equals.
  `float64` is the rounding of an integer to the nearest such value, and a sum
  of two of them is the rounding of the exact sum.
* The process-wide metric objects are the fields of the record `Metrics`,
  threaded through the functions that write them.
* The warning logged for an unparseable peer name writes no metric and is not
  part of the state.
-/

namespace NodeMetrics

/-! ## Strings -/

/-- A Go `string`: a sequence of bytes. -/
abbrev GoString := List UInt8

/-- The Go string literal with the given text: its UTF-8 encoding. -/
def str (s : String) : GoString := s.toUTF8.data.toList

/-- The byte `/`. -/
def slash : UInt8 := 0x2F

/-- The segment before the first `/` of the bytes, and the segments after it. -/
def splitFirst : List UInt8 → List UInt8 × List (List UInt8)
  | [] => ([], [])
  | c :: cs =>
    if c = slash then ([], (splitFirst cs).1 :: (splitFirst cs).2)
    else (c :: (splitFirst cs).1, (splitFirst cs).2)

/-- Go `strings.Split(name, "/")`: the substrings between the separators. -/
def Split (name : GoString) : List GoString :=
  (splitFirst name).1 :: (splitFirst name).2

/-- The scanner behind `utf8.ValidString`: `need` continuation bytes are still
due, the next of them within `lo..hi`; the encodings accepted are those of
Unicode scalar values in their shortest form. -/
def validFrom : Nat → UInt8 → UInt8 → List UInt8 → Bool
  | need, _, _, [] => need == 0
  | 0, _, _, b :: rest =>
    if b ≤ 0x7F then validFrom 0 0x80 0xBF rest
    else if 0xC2 ≤ b ∧ b ≤ 0xDF then validFrom 1 0x80 0xBF rest
    else if b = 0xE0 then validFrom 2 0xA0 0xBF rest
    else if b = 0xED then validFrom 2 0x80 0x9F rest
    else if 0xE1 ≤ b ∧ b ≤ 0xEF then validFrom 2 0x80 0xBF rest
    else if b = 0xF0 then validFrom 3 0x90 0xBF rest
    else if 0xF1 ≤ b ∧ b ≤ 0xF3 then validFrom 3 0x80 0xBF rest
    else if b = 0xF4 then validFrom 3 0x80 0x8F rest
    else false
  | need + 1, lo, hi, b :: rest =>
    if lo ≤ b ∧ b ≤ hi then validFrom need 0x80 0xBF rest else false

/-- Go `utf8.ValidString(s)`. -/
def ValidString (s : GoString) : Bool := validFrom 0 0x80 0xBF s

/-! ## Numbers -/

/-- The gap between neighbouring `float64` values at magnitude `a`: 1 below
`2^53`, doubling at every power of two from there on. `q` is the gap tried,
`fuel` bounds the doublings. -/
def spacing : Nat → Nat → Nat → Nat
  | 0, q, _ => q
  | fuel + 1, q, a => if a < 2 ^ 53 * q then q else spacing fuel (2 * q) a

/-- Go `float64(n)` for an integer `n`: the nearest `float64`, a tie going to
the even mantissa. Every `float64` of magnitude `2^53` or more is an integer,
so the result is written as an integer. (A Go `int` is below `2^63` in
magnitude, far from the overflow of `float64` at `2^1024`.) -/
def float64 (n : Int) : Int :=
  let a := n.natAbs
  let q := spacing 971 1 a
  let k := a / q
  let r := a % q
  let k := if 2 * r < q then k else if q < 2 * r then k + 1 else if k % 2 = 0 then k else k + 1
  Int.sign n * ((k * q : Nat) : Int)

/-! ## Data model -/

/-- The `prom.Labels` built by this file: a map with exactly the three keys
`type`, `version` and `platform`, the label names `nodePeersGauge` is declared
with (in that order). -/
structure Labels where
  type : GoString
  version : GoString
  platform : GoString
deriving DecidableEq, Repr

/-- The Go struct `peersChange`; its fields are `float64`. -/
structure peersChange where
  Counter : Int
  Absolute : Int
  Max : Int
deriving DecidableEq, Repr

/-- A connected peer, `*p2p.Peer`; the reporter reads only its name. -/
structure Peer where
  name : GoString
deriving DecidableEq, Repr

/-- Go `p.Name()`. -/
def Peer.Name (p : Peer) : GoString := p.name

/-- The part of `*p2p.Server` the reporter reads: the peer list returned by
`Peers()`, the number returned by `PeerCount()` and the field `MaxPeers`.
The two calls are separate queries, so the count is a field of its own. -/
structure Server where
  peers : List Peer
  peerCount : Int
  MaxPeers : Int
deriving DecidableEq, Repr

/-- Go `server.Peers()`. -/
def Server.Peers (server : Server) : List Peer := server.peers

/-- Go `server.PeerCount()`. -/
def Server.PeerCount (server : Server) : Int := server.peerCount

/-- The node, `*node.Node`; its server is absent (`nil`) until it is started. -/
structure Node where
  server : Option Server
deriving DecidableEq, Repr

/-- Go `node.Server()`. -/
def Node.Server (node : Node) : Option Server := node.server

/-- Modelled from the spec: the event type `p2p.PeerEventType` of the
networking library is not among the sources; the spec gives it as the enum
Connect, Disconnect, Other. -/
inductive PeerEventType where
  | PeerEventTypeAdd
  | PeerEventTypeDrop
  | PeerEventTypeOther
deriving DecidableEq, Repr

/-! ## Metric objects -/

/-- Go `g.Add(v)` on a `prom.Gauge` holding `g`: the `float64` sum of the
value held and `v`. -/
def Gauge.Add (g : Int) (v : Int) : Int := float64 (g + v)

/-- Go `g.Set(v)`. -/
def Gauge.Set (_g : Int) (v : Int) : Int := v

/-- Go `g.Inc()`: `Add(1)`. -/
def Gauge.Inc (g : Int) : Int := Gauge.Add g 1

/-- A `prom.GaugeVec`: the child gauges that exist, each with the value it
holds under its label set. A label set occurs at most once. -/
abbrev GaugeVec := List (Labels × Int)

/-- Go `v.Reset()`: deletes every child gauge. -/
def GaugeVec.Reset (_v : GaugeVec) : GaugeVec := []

/-- The value of the child gauge under `labels`, if there is one. -/
def GaugeVec.get (v : GaugeVec) (labels : Labels) : Option Int :=
  match v with
  | [] => none
  | (k, g) :: rest => if k = labels then some g else GaugeVec.get rest labels

/-- The child gauge under `labels` is created at 0 when it does not exist yet,
and `op` is applied to it. -/
def GaugeVec.onChild (v : GaugeVec) (labels : Labels) (op : Int → Int) : GaugeVec :=
  match v with
  | [] => [(labels, op 0)]
  | (k, g) :: rest =>
    if k = labels then (k, op g) :: rest else (k, g) :: GaugeVec.onChild rest labels op

/-- The check of the metrics library on the labels passed to `With`: every
label value is valid UTF-8. (The label names passed by this file are the
declared ones.) -/
def Labels.valid (labels : Labels) : Bool :=
  ValidString labels.type && ValidString labels.version && ValidString labels.platform

/-- Go `v.With(labels).op()`: `With` panics (`none`), before it touches the
vector, when the labels fail the check of the library; otherwise it finds or
creates the child gauge and `op` is applied to it. -/
def GaugeVec.With (v : GaugeVec) (labels : Labels) (op : Int → Int) : Option GaugeVec :=
  if labels.valid then some (v.onChild labels op) else none

/-- The four process-wide metrics: the gauge vector and the values held by
the three gauges. -/
structure Metrics where
  nodePeersGauge : GaugeVec
  nodePeersChanges : Int
  nodePeersAbsolute : Int
  nodeMaxPeersGauge : Int
deriving DecidableEq, Repr

/-- How a call ends: `result` is what it returned, `none` when it panicked;
`metrics` are the metric objects as the call left them. -/
structure Outcome (α : Type) where
  result : Option α
  metrics : Metrics
deriving DecidableEq, Repr

/-! ## The reporter -/

deriving instance DecidableEq for Except

/-- Go `labelsFromNodeName`. -/
def labelsFromNodeName (name : GoString) : Except String Labels :=
  let tokens := Split name
  if tokens.length = 4 then
    .ok { type := tokens[0]!, version := tokens[1]!, platform := tokens[2]! }
  else if tokens.length = 3 then
    .ok { type := tokens[0]!, version := str "unknown", platform := tokens[1]! }
  else
    .error "wrong number of segments in name"

/-- The loop of `calculatePeerCounts` over the peers still to visit: the gauge
vector as the loop leaves it, and whether the loop ran to its end (`false`
when `With` panicked). -/
def countPeers : List Peer → GaugeVec → GaugeVec × Bool
  | [], gauge => (gauge, true)
  | p :: rest, gauge =>
    match labelsFromNodeName p.Name with
    | .error _ => countPeers rest gauge
    | .ok labels =>
      match gauge.With labels Gauge.Inc with
      | none => (gauge, false)
      | some gauge => countPeers rest gauge

/-- Go `calculatePeerCounts`. -/
def calculatePeerCounts (server : Server) (m : Metrics) : Outcome Unit :=
  let peers := server.Peers
  let m := { m with nodePeersGauge := m.nodePeersGauge.Reset }
  let loop := countPeers peers m.nodePeersGauge
  { result := if loop.2 then some () else none,
    metrics := { m with nodePeersGauge := loop.1 } }

/-- Go `computeMetrics`; the named results start at their zero values. -/
def computeMetrics (server : Server) (evType : PeerEventType) : peersChange × Option String :=
  let result : peersChange := { Counter := 0, Absolute := 0, Max := 0 }
  let err : Option String := none
  let result :=
    match evType with
    | .PeerEventTypeAdd => { result with Counter := 1 }
    | .PeerEventTypeDrop => { result with Counter := -1 }
    | _ => result
  let result := { result with Absolute := float64 server.PeerCount }
  let result := { result with Max := float64 server.MaxPeers }
  (result, err)

/-- Go `updateNodeMetrics`: the error returned, or the panic, and the metrics
afterwards. -/
def updateNodeMetrics (node : Node) (evType : PeerEventType) (m : Metrics) :
    Outcome (Option String) :=
  match node.Server with
  | none => { result := some (some "p2p server is unavailable"), metrics := m }
  | some server =>
    match calculatePeerCounts server m with
    | { result := none, metrics := m } => { result := none, metrics := m }
    | { result := some (), metrics := m } =>
      match computeMetrics server evType with
      | (_, some err) => { result := some (some err), metrics := m }
      | (change, none) =>
        let m := { m with nodePeersChanges := Gauge.Add m.nodePeersChanges change.Counter }
        let m := { m with nodePeersAbsolute := Gauge.Set m.nodePeersAbsolute change.Absolute }
        let m := { m with nodeMaxPeersGauge := Gauge.Set m.nodeMaxPeersGauge change.Max }
        { result := some none, metrics := m }

/-! ## Specification vocabulary -/

/-- The number of peers of the list whose name parses to `labels`. -/
def parsedCount (peers : List Peer) (labels : Labels) : Nat :=
  (peers.filter (fun p => labelsFromNodeName p.Name = .ok labels)).length

/-- The label sets that have a cell in the gauge vector. -/
def GaugeVec.keys (v : GaugeVec) : List Labels := v.map Prod.fst

/-- Every peer name of the list that parses gives labels the metrics library
accepts. -/
def labelsAccepted (peers : List Peer) : Prop :=
  ∀ p ∈ peers, ∀ labels, labelsFromNodeName p.Name = .ok labels → labels.valid = true

/-- The name `\xff/1/linux/x`: three separators, and a first segment that is
not valid UTF-8. -/
def badUtf8Name : GoString := 0xFF :: str "/1/linux/x"

/-! ## Facts about `Split` -/

theorem splitFirst_snd_length (s : List UInt8) :
    (splitFirst s).2.length = s.count slash := by
  induction s with
  | nil => rfl
  | cons c cs ih =>
    by_cases hc : c = slash
    · subst hc
      simp [splitFirst, ih]
    · have hne : ¬ (c == slash) = true := by simpa using hc
      simp [splitFirst, hc, ih, List.count_cons]

/-- The number of segments is the number of separators plus one. -/
theorem Split_length (name : GoString) :
    (Split name).length = name.count slash + 1 := by
  simp [Split, splitFirst_snd_length]

theorem splitFirst_no_sep (a : List UInt8) (h : slash ∉ a) : splitFirst a = (a, []) := by
  induction a with
  | nil => rfl
  | cons c cs ih =>
    have hc : c ≠ slash := fun e => h (by simp [e])
    have hcs : slash ∉ cs := fun e => h (by simp [e])
    simp [splitFirst, hc, ih hcs]

theorem splitFirst_append_sep (a rest : List UInt8) (h : slash ∉ a) :
    splitFirst (a ++ slash :: rest) = (a, (splitFirst rest).1 :: (splitFirst rest).2) := by
  induction a with
  | nil => simp [splitFirst]
  | cons c cs ih =>
    have hc : c ≠ slash := fun e => h (by simp [e])
    have hcs : slash ∉ cs := fun e => h (by simp [e])
    simp [splitFirst, hc, ih hcs]

/-- A name without separator is its own single segment. -/
theorem Split_no_sep (a : GoString) (h : slash ∉ a) : Split a = [a] := by
  simp [Split, splitFirst_no_sep a h]

/-- The first segment ends at the first separator. -/
theorem Split_sep (a rest : GoString) (h : slash ∉ a) :
    Split (a ++ slash :: rest) = a :: Split rest := by
  simp [Split, splitFirst_append_sep a rest h]

/-- No segment contains the separator. -/
theorem Split_no_sep_mem (s : GoString) : ∀ t ∈ Split s, slash ∉ t := by
  induction s with
  | nil => simp [Split, splitFirst]
  | cons c cs ih =>
    by_cases hc : c = slash
    · subst hc
      intro t ht
      simp only [Split, splitFirst, if_true, List.mem_cons] at ht
      rcases ht with rfl | ht
      · simp
      · exact ih t (by simpa [Split] using ht)
    · intro t ht
      simp only [Split, splitFirst, if_neg hc, List.mem_cons] at ht
      rcases ht with rfl | ht
      · have h1 := ih (splitFirst cs).1 (by simp [Split])
        intro hm
        rcases List.mem_cons.1 hm with e | e
        · exact hc e.symm
        · exact h1 e
      · exact ih t (by simp [Split, ht])

/-- Joining the segments with the separator gives the name back. -/
theorem Split_join (s : GoString) : [slash].intercalate (Split s) = s := by
  induction s with
  | nil => rfl
  | cons c cs ih =>
    by_cases hc : c = slash
    · subst hc
      have e : Split (slash :: cs) = [] :: Split cs := by simp [Split, splitFirst]
      rw [e]
      simp only [List.intercalate] at ih ⊢
      simp [Split, List.intersperse, ih] at ih ⊢
    · simp only [Split, splitFirst, if_neg hc]
      simp only [Split] at ih
      cases hr : (splitFirst cs).2 with
      | nil =>
        rw [hr] at ih
        simpa [List.intercalate, List.intersperse] using ih
      | cons t ts =>
        rw [hr] at ih
        simpa [List.intercalate, List.intersperse] using ih

/-- Four separator-free segments joined by `/` split into exactly those four. -/
theorem Split_four (s0 s1 s2 s3 : GoString) (h0 : slash ∉ s0) (h1 : slash ∉ s1)
    (h2 : slash ∉ s2) (h3 : slash ∉ s3) :
    Split (s0 ++ slash :: (s1 ++ slash :: (s2 ++ slash :: s3))) = [s0, s1, s2, s3] := by
  rw [Split_sep _ _ h0, Split_sep _ _ h1, Split_sep _ _ h2, Split_no_sep _ h3]

/-- Three separator-free segments joined by `/` split into exactly those three. -/
theorem Split_three (s0 s1 s2 : GoString) (h0 : slash ∉ s0) (h1 : slash ∉ s1)
    (h2 : slash ∉ s2) :
    Split (s0 ++ slash :: (s1 ++ slash :: s2)) = [s0, s1, s2] := by
  rw [Split_sep _ _ h0, Split_sep _ _ h1, Split_no_sep _ h2]

/-! ## Facts about `float64` -/

theorem spacing_small (fuel q a : Nat) (h : a < 2 ^ 53 * q) :
    spacing (fuel + 1) q a = q := by
  rw [spacing, if_pos h]

theorem float64_small (n : Int) (h : n.natAbs < 2 ^ 53) : float64 n = n := by
  have hs : spacing 971 1 n.natAbs = 1 := spacing_small 970 1 n.natAbs (by simpa using h)
  simp only [float64, hs, Nat.mod_one, Nat.div_one, Nat.mul_one, Nat.mul_zero]
  rw [if_pos (by decide)]
  exact Int.sign_mul_natAbs n

/-- An integer of magnitude at most `2^53` is a `float64`. -/
theorem float64_of_le (n : Int) (h : n.natAbs ≤ 2 ^ 53) : float64 n = n := by
  rcases Nat.lt_or_ge n.natAbs (2 ^ 53) with h1 | h1
  · exact float64_small n h1
  · have e : n.natAbs = 2 ^ 53 := le_antisymm h h1
    rcases Int.natAbs_eq n with h2 | h2
    · rw [h2, e]
      decide
    · rw [h2, e]
      decide

/-! ## Facts about the labelled gauge -/

theorem GaugeVec.get_onChild (v : GaugeVec) (labels other : Labels) (op : Int → Int) :
    (v.onChild labels op).get other =
      if labels = other then some (op ((v.get labels).getD 0)) else v.get other := by
  induction v with
  | nil => simp [GaugeVec.onChild, GaugeVec.get]
  | cons cell rest ih =>
    obtain ⟨k, g⟩ := cell
    by_cases hk : k = labels
    · subst hk
      by_cases ho : k = other
      · simp [GaugeVec.onChild, GaugeVec.get, ho]
      · simp [GaugeVec.onChild, GaugeVec.get, ho]
    · by_cases ho : k = other
      · subst ho
        have hne : ¬ labels = k := fun e => hk e.symm
        simp [GaugeVec.onChild, GaugeVec.get, hk, hne]
      · simp [GaugeVec.onChild, GaugeVec.get, hk, ho, ih]

theorem GaugeVec.get_eq_none_iff (v : GaugeVec) (labels : Labels) :
    v.get labels = none ↔ ∀ cell ∈ v, cell.1 ≠ labels := by
  induction v with
  | nil => simp [GaugeVec.get]
  | cons cell rest ih =>
    obtain ⟨k, g⟩ := cell
    by_cases hk : k = labels
    · simp [GaugeVec.get, hk]
    · simp [GaugeVec.get, hk, ih]

theorem parsedCount_cons (p : Peer) (peers : List Peer) (labels : Labels) :
    parsedCount (p :: peers) labels =
      (if labelsFromNodeName p.Name = .ok labels then 1 else 0) + parsedCount peers labels := by
  by_cases h : labelsFromNodeName p.Name = .ok labels
  · simp [parsedCount, List.filter_cons, h, Nat.add_comm]
  · simp [parsedCount, List.filter_cons, h]

theorem parsedCount_eq_zero (peers : List Peer) (labels : Labels)
    (h : ∀ p ∈ peers, labelsFromNodeName p.Name ≠ .ok labels) :
    parsedCount peers labels = 0 := by
  simp only [parsedCount, List.length_eq_zero, List.filter_eq_nil_iff]
  intro p hp
  simpa using h p hp

/-- The loop creates no cell for a label set to which no peer parses, whether
it runs to its end or panics on the way. -/
theorem countPeers_get_of_not_parsed (peers : List Peer) (gauge : GaugeVec) (labels : Labels)
    (h : ∀ p ∈ peers, labelsFromNodeName p.Name ≠ .ok labels) :
    (countPeers peers gauge).1.get labels = gauge.get labels := by
  induction peers generalizing gauge with
  | nil => rfl
  | cons p peers ih =>
    have hrest : ∀ q ∈ peers, labelsFromNodeName q.Name ≠ .ok labels :=
      fun q hq => h q (List.mem_cons_of_mem _ hq)
    have hp := h p (List.mem_cons_self _ _)
    cases hparse : labelsFromNodeName p.Name with
    | error e => simp [countPeers, hparse, ih gauge hrest]
    | ok l =>
      have hl : ¬ l = labels := fun e => hp (by rw [hparse, e])
      by_cases hv : l.valid = true
      · simp [countPeers, hparse, GaugeVec.With, hv, ih _ hrest, GaugeVec.get_onChild, hl]
      · simp [countPeers, hparse, GaugeVec.With, hv]

/-- The loop runs to its end exactly when the library accepts the labels of
every peer name that parses. -/
theorem countPeers_done_iff (peers : List Peer) (gauge : GaugeVec) :
    (countPeers peers gauge).2 = true ↔ labelsAccepted peers := by
  induction peers generalizing gauge with
  | nil => simp [countPeers, labelsAccepted]
  | cons p peers ih =>
    cases hparse : labelsFromNodeName p.Name with
    | error e =>
      simp only [countPeers, hparse, ih gauge]
      simp [labelsAccepted, hparse]
    | ok l =>
      by_cases hv : l.valid = true
      · simp only [countPeers, hparse, GaugeVec.With, hv, if_true, ih]
        simp [labelsAccepted, hparse, hv]
      · simp only [countPeers, hparse, GaugeVec.With, hv]
        simp [labelsAccepted, hparse, hv]

/-- A cell below `2^53` is incremented exactly. -/
theorem Gauge.Inc_exact (c : Int) (h0 : 0 ≤ c) (hb : c + 1 < 2 ^ 53) :
    Gauge.Inc c = c + 1 := by
  have h : (c + 1).natAbs < 2 ^ 53 := by omega
  simpa [Gauge.Inc, Gauge.Add] using float64_small (c + 1) h

/-- Where the library accepts every label set and the counts stay below
`2^53`, the loop adds to each cell the number of peers that parse to its label
set (`c` is the value of the cell before, 0 if there is none). -/
theorem countPeers_get (peers : List Peer) (gauge : GaugeVec) (labels : Labels) (c : Int)
    (hacc : labelsAccepted peers) (hc : (gauge.get labels).getD 0 = c) (h0 : 0 ≤ c)
    (hb : c + (parsedCount peers labels : Int) < 2 ^ 53) :
    (countPeers peers gauge).1.get labels =
      if parsedCount peers labels = 0 then gauge.get labels
      else some (c + (parsedCount peers labels : Int)) := by
  induction peers generalizing gauge c with
  | nil => simp [parsedCount, countPeers]
  | cons p peers ih =>
    have hrest : labelsAccepted peers := fun q hq => hacc q (List.mem_cons_of_mem _ hq)
    rw [parsedCount_cons] at hb ⊢
    cases hparse : labelsFromNodeName p.Name with
    | error e =>
      have hne : ¬ (Except.error e : Except String Labels) = Except.ok labels := by
        intro e1
        cases e1
      rw [hparse, if_neg hne] at hb
      simp only [countPeers, hparse, if_neg hne, Nat.zero_add] at hb ⊢
      exact ih gauge c hrest hc h0 hb
    | ok l =>
      have hv : l.valid = true := hacc p (List.mem_cons_self _ _) l hparse
      by_cases hl : l = labels
      · subst hl
        have hone : (if (Except.ok l : Except String Labels) = Except.ok l then 1 else 0) = 1 :=
          if_pos rfl
        rw [hparse, hone] at hb
        rw [hone]
        push_cast at hb
        have hinc : Gauge.Inc c = c + 1 := Gauge.Inc_exact c h0 (by omega)
        have hget : ((gauge.onChild l Gauge.Inc).get l).getD 0 = c + 1 := by
          simp [GaugeVec.get_onChild, hc, hinc]
        have hih := ih (gauge.onChild l Gauge.Inc) (c + 1) hrest hget (by omega) (by omega)
        simp only [countPeers, hparse, GaugeVec.With, hv, if_true]
        rw [hih]
        by_cases hz : parsedCount peers l = 0
        · simp [hz, GaugeVec.get_onChild, hc, hinc]
        · have hz1 : ¬ (1 + parsedCount peers l = 0) := by omega
          rw [if_neg hz, if_neg hz1]
          congr 1
          push_cast
          exact Int.add_assoc _ _ _
      · have hne : ¬ (Except.ok l : Except String Labels) = Except.ok labels := by
          intro e
          exact hl (Except.ok.inj e)
        rw [hparse, if_neg hne] at hb
        have hget : (gauge.onChild l Gauge.Inc).get labels = gauge.get labels := by
          simp [GaugeVec.get_onChild, hl]
        simp only [countPeers, hparse, GaugeVec.With, hv, if_true, if_neg hne,
          Nat.zero_add] at hb ⊢
        rw [ih (gauge.onChild l Gauge.Inc) c hrest (by rw [hget]; exact hc) h0 hb, hget]

theorem GaugeVec.keys_onChild (v : GaugeVec) (labels : Labels) (op : Int → Int) :
    (v.onChild labels op).keys = if labels ∈ v.keys then v.keys else v.keys ++ [labels] := by
  induction v with
  | nil => simp [GaugeVec.onChild, GaugeVec.keys]
  | cons cell rest ih =>
    obtain ⟨k, g⟩ := cell
    simp only [GaugeVec.keys] at ih
    by_cases hk : k = labels
    · simp [GaugeVec.onChild, GaugeVec.keys, hk]
    · have hne : ¬ labels = k := fun e => hk e.symm
      by_cases hm : labels ∈ rest.map Prod.fst
      · simp only [GaugeVec.onChild, GaugeVec.keys, if_neg hk, List.map_cons, ih, if_pos hm]
        simp [hm]
      · simp only [GaugeVec.onChild, GaugeVec.keys, if_neg hk, List.map_cons, ih, if_neg hm]
        simp [hne, hm]

theorem GaugeVec.keys_onChild_nodup (v : GaugeVec) (labels : Labels) (op : Int → Int)
    (h : v.keys.Nodup) : (v.onChild labels op).keys.Nodup := by
  rw [GaugeVec.keys_onChild]
  by_cases hm : labels ∈ v.keys
  · simpa [hm] using h
  · simp only [if_neg hm]
    refine List.Nodup.append h (List.nodup_singleton _) ?_
    intro a ha hb
    rw [List.mem_singleton] at hb
    exact hm (hb ▸ ha)

theorem countPeers_keys_nodup (peers : List Peer) (gauge : GaugeVec)
    (h : gauge.keys.Nodup) : (countPeers peers gauge).1.keys.Nodup := by
  induction peers generalizing gauge with
  | nil => simpa [countPeers] using h
  | cons p peers ih =>
    cases hparse : labelsFromNodeName p.Name with
    | error e => simpa [countPeers, hparse] using ih gauge h
    | ok l =>
      by_cases hv : l.valid = true
      · simpa [countPeers, hparse, GaugeVec.With, hv] using
          ih _ (GaugeVec.keys_onChild_nodup gauge l Gauge.Inc h)
      · simpa [countPeers, hparse, GaugeVec.With, hv] using h

/-- After `calculatePeerCounts` every label set has at most one cell. -/
theorem calculatePeerCounts_keys_nodup (server : Server) (m : Metrics) :
    (calculatePeerCounts server m).metrics.nodePeersGauge.keys.Nodup := by
  simp only [calculatePeerCounts, GaugeVec.Reset]
  exact countPeers_keys_nodup _ _ (by simp [GaugeVec.keys])

/-! ## Facts about the update -/

/-- With a server present and the loop run to its end, the update returns
`nil` with the rebuilt gauge vector, the churn gauge added to and the two
other gauges set. -/
theorem updateNodeMetrics_of_done (server : Server) (evType : PeerEventType) (m : Metrics)
    (h : (countPeers server.Peers []).2 = true) :
    updateNodeMetrics ⟨some server⟩ evType m =
      { result := some none,
        metrics :=
          { nodePeersGauge := (countPeers server.Peers []).1,
            nodePeersChanges :=
              float64 (m.nodePeersChanges + (computeMetrics server evType).1.Counter),
            nodePeersAbsolute := float64 server.PeerCount,
            nodeMaxPeersGauge := float64 server.MaxPeers } } := by
  simp [updateNodeMetrics, Node.Server, calculatePeerCounts, GaugeVec.Reset, h, computeMetrics,
    Gauge.Add, Gauge.Set]

/-- With a server present and a panic in the loop, the update panics; only the
gauge vector has been written. -/
theorem updateNodeMetrics_of_panic (server : Server) (evType : PeerEventType) (m : Metrics)
    (h : (countPeers server.Peers []).2 = false) :
    updateNodeMetrics ⟨some server⟩ evType m =
      { result := none,
        metrics := { m with nodePeersGauge := (countPeers server.Peers []).1 } } := by
  simp [updateNodeMetrics, Node.Server, calculatePeerCounts, GaugeVec.Reset, h]

/-- With a server present, the update returns exactly when the library accepts
the labels of every peer name that parses. -/
theorem updateNodeMetrics_returns_iff (server : Server) (evType : PeerEventType)
    (m : Metrics) :
    (updateNodeMetrics ⟨some server⟩ evType m).result ≠ none ↔ labelsAccepted server.Peers := by
  rw [← countPeers_done_iff server.Peers []]
  cases h : (countPeers server.Peers []).2 with
  | true => simp [updateNodeMetrics_of_done server evType m h]
  | false => simp [updateNodeMetrics_of_panic server evType m h]

/-- Where the library accepts the labels of every peer and fewer than `2^53`
peers parse to a label set, `calculatePeerCounts` returns and the cell of the
label set holds the number of those peers (no cell when there is none). -/
theorem calculatePeerCounts_counts_of_accepted (server : Server) (m : Metrics)
    (labels : Labels) (hacc : labelsAccepted server.Peers)
    (hb : parsedCount server.Peers labels < 2 ^ 53) :
    (calculatePeerCounts server m).result = some () ∧
    (calculatePeerCounts server m).metrics.nodePeersGauge.get labels =
      (if parsedCount server.Peers labels = 0 then none
       else some (parsedCount server.Peers labels : Int)) := by
  constructor
  · simp [calculatePeerCounts, (countPeers_done_iff server.Peers _).2 hacc]
  · have h := countPeers_get server.Peers [] labels 0 hacc rfl (le_refl 0)
      (by
        have : ((parsedCount server.Peers labels : Nat) : Int) < ((2 ^ 53 : Nat) : Int) :=
          Int.ofNat_lt.2 hb
        simpa using this)
    simpa [calculatePeerCounts, GaugeVec.Reset, GaugeVec.get] using h

/-! ## The specification -/

/-- C1: a peer name that splits on `/` into exactly four segments parses
successfully to the labels type = segment 0, version = segment 1,
platform = segment 2; any other name with the same first three segments and
four segments in all parses to the same result, so segment 3 has no influence. -/
theorem labelsFromNodeName_four_segments (name s0 s1 s2 s3 : GoString)
    (h : Split name = [s0, s1, s2, s3]) :
    labelsFromNodeName name = .ok { type := s0, version := s1, platform := s2 } ∧
    ∀ (other s3x : GoString), Split other = [s0, s1, s2, s3x] →
      labelsFromNodeName other = labelsFromNodeName name := by
  have key : ∀ (n t : GoString), Split n = [s0, s1, s2, t] →
      labelsFromNodeName n = .ok { type := s0, version := s1, platform := s2 } := by
    intro n t hn
    simp [labelsFromNodeName, hn]
  refine ⟨key name s3 h, ?_⟩
  intro other s3x ho
  rw [key other s3x ho, key name s3 h]

theorem labelsFromNodeName_four_segments_witness :
    Split (str "eth/1.0/linux/extra") = [str "eth", str "1.0", str "linux", str "extra"] ∧
    labelsFromNodeName (str "eth/1.0/linux/extra") =
      .ok { type := str "eth", version := str "1.0", platform := str "linux" } :=
  ⟨by decide,
   (labelsFromNodeName_four_segments (str "eth/1.0/linux/extra") (str "eth") (str "1.0")
      (str "linux") (str "extra") (by decide)).1⟩

/-- C2: a peer name that splits on `/` into exactly three segments parses
successfully to the labels type = segment 0, version = "unknown",
platform = segment 1; any other three-segment name with the same first two
segments parses to the same result, so segment 2 has no influence. -/
theorem labelsFromNodeName_three_segments (name s0 s1 s2 : GoString)
    (h : Split name = [s0, s1, s2]) :
    labelsFromNodeName name = .ok { type := s0, version := str "unknown", platform := s1 } ∧
    ∀ (other s2x : GoString), Split other = [s0, s1, s2x] →
      labelsFromNodeName other = labelsFromNodeName name := by
  have key : ∀ (n t : GoString), Split n = [s0, s1, t] →
      labelsFromNodeName n = .ok { type := s0, version := str "unknown", platform := s1 } := by
    intro n t hn
    simp [labelsFromNodeName, hn]
  refine ⟨key name s2 h, ?_⟩
  intro other s2x ho
  rw [key other s2x ho, key name s2 h]

theorem labelsFromNodeName_three_segments_witness :
    Split (str "eth/linux/extra") = [str "eth", str "linux", str "extra"] ∧
    labelsFromNodeName (str "eth/linux/extra") =
      .ok { type := str "eth", version := str "unknown", platform := str "linux" } :=
  ⟨by decide,
   (labelsFromNodeName_three_segments (str "eth/linux/extra") (str "eth") (str "linux")
      (str "extra") (by decide)).1⟩

/-- C3: a peer name whose number of `/`-delimited segments is 0, 1, 2 or at
least 5 is rejected with the error "wrong number of segments in name" and no
labels; the name "bad" and the empty name are rejected. -/
theorem labelsFromNodeName_wrong_segments :
    (∀ name : GoString,
      ((Split name).length = 0 ∨ (Split name).length = 1 ∨ (Split name).length = 2 ∨
        5 ≤ (Split name).length) →
      labelsFromNodeName name = .error "wrong number of segments in name") ∧
    labelsFromNodeName (str "bad") = .error "wrong number of segments in name" ∧
    labelsFromNodeName (str "") = .error "wrong number of segments in name" := by
  refine ⟨?_, by decide, by decide⟩
  intro name h
  have h4 : ¬ (Split name).length = 4 := by omega
  have h3 : ¬ (Split name).length = 3 := by omega
  simp [labelsFromNodeName, h4, h3]

theorem labelsFromNodeName_wrong_segments_witness :
    (Split (str "a/b/c/d/e")).length = 5 ∧
    labelsFromNodeName (str "a/b/c/d/e") = .error "wrong number of segments in name" ∧
    (Split (str "a/b")).length = 2 ∧
    labelsFromNodeName (str "a/b") = .error "wrong number of segments in name" :=
  ⟨by decide,
   labelsFromNodeName_wrong_segments.1 (str "a/b/c/d/e")
     (Or.inr (Or.inr (Or.inr (by decide)))),
   by decide,
   labelsFromNodeName_wrong_segments.1 (str "a/b") (Or.inr (Or.inr (Or.inl (by decide))))⟩

/-- C4: a defect of the code. In the snapshot of the two peers `\xff/1/linux/x`
and `eth/1.0/linux/a` both names parse, one peer to each of two label sets, yet
`calculatePeerCounts` panics in `With` at the first peer, whose type label is
not valid UTF-8, and leaves the gauge vector empty: neither label set has the
cell with value 1 that its peer should give it. -/
theorem calculatePeerCounts_panics_on_invalid_label :
    labelsFromNodeName badUtf8Name =
      .ok { type := [0xFF], version := str "1", platform := str "linux" } ∧
    parsedCount [⟨badUtf8Name⟩, ⟨str "eth/1.0/linux/a"⟩]
      { type := str "eth", version := str "1.0", platform := str "linux" } = 1 ∧
    parsedCount [⟨badUtf8Name⟩, ⟨str "eth/1.0/linux/a"⟩]
      { type := [0xFF], version := str "1", platform := str "linux" } = 1 ∧
    (calculatePeerCounts
      { peers := [⟨badUtf8Name⟩, ⟨str "eth/1.0/linux/a"⟩], peerCount := 2, MaxPeers := 50 }
      { nodePeersGauge := [], nodePeersChanges := 7, nodePeersAbsolute := 1,
        nodeMaxPeersGauge := 2 }) =
      { result := none,
        metrics := { nodePeersGauge := [], nodePeersChanges := 7, nodePeersAbsolute := 1,
                     nodeMaxPeersGauge := 2 } } := by
  decide

/-- C5: the labelled gauge after `calculatePeerCounts` is the same for any
two prior metric states and the same snapshot, and a label set that had a cell
before and to which no peer of the snapshot parses has no cell afterwards. -/
theorem calculatePeerCounts_rebuilds (server : Server) (m1 m2 : Metrics) :
    (calculatePeerCounts server m1).metrics.nodePeersGauge =
      (calculatePeerCounts server m2).metrics.nodePeersGauge ∧
    ∀ labels : Labels, m1.nodePeersGauge.get labels ≠ none →
      (∀ p ∈ server.Peers, labelsFromNodeName p.Name ≠ .ok labels) →
      (calculatePeerCounts server m1).metrics.nodePeersGauge.get labels = none ∧
      ∀ cell ∈ (calculatePeerCounts server m1).metrics.nodePeersGauge, cell.1 ≠ labels := by
  refine ⟨rfl, ?_⟩
  intro labels _ hno
  have hget : (calculatePeerCounts server m1).metrics.nodePeersGauge.get labels = none := by
    simp only [calculatePeerCounts, GaugeVec.Reset]
    rw [countPeers_get_of_not_parsed _ _ _ hno]
    rfl
  exact ⟨hget, (GaugeVec.get_eq_none_iff _ _).1 hget⟩

theorem calculatePeerCounts_rebuilds_witness :
    GaugeVec.get [(⟨str "old", str "0.1", str "mac"⟩, 5)] ⟨str "old", str "0.1", str "mac"⟩ =
      some 5 ∧
    (calculatePeerCounts
      { peers := [⟨str "bad"⟩, ⟨str "eth/1.0/linux/a"⟩], peerCount := 2, MaxPeers := 50 }
      { nodePeersGauge := [(⟨str "old", str "0.1", str "mac"⟩, 5)], nodePeersChanges := 7,
        nodePeersAbsolute := 1, nodeMaxPeersGauge := 2 }).metrics.nodePeersGauge.get
        ⟨str "old", str "0.1", str "mac"⟩ = none :=
  ⟨by decide,
   ((calculatePeerCounts_rebuilds
      { peers := [⟨str "bad"⟩, ⟨str "eth/1.0/linux/a"⟩], peerCount := 2, MaxPeers := 50 }
      { nodePeersGauge := [(⟨str "old", str "0.1", str "mac"⟩, 5)], nodePeersChanges := 7,
        nodePeersAbsolute := 1, nodeMaxPeersGauge := 2 }
      { nodePeersGauge := [], nodePeersChanges := 0,
        nodePeersAbsolute := 0, nodeMaxPeersGauge := 0 }).2
      ⟨str "old", str "0.1", str "mac"⟩ (by decide) (by decide)).1⟩

/-- C6, as stated, fails: at the prior churn value `2^53` the update for the
event Add returns `nil` and leaves the churn metric at `2^53`, not at
`2^53 + 1`, which no `float64` holds. -/
theorem updateNodeMetrics_churn_saturates :
    (updateNodeMetrics ⟨some { peers := [], peerCount := 0, MaxPeers := 50 }⟩ .PeerEventTypeAdd
      { nodePeersGauge := [], nodePeersChanges := 2 ^ 53, nodePeersAbsolute := 0,
        nodeMaxPeersGauge := 50 }).result = some none ∧
    (updateNodeMetrics ⟨some { peers := [], peerCount := 0, MaxPeers := 50 }⟩ .PeerEventTypeAdd
      { nodePeersGauge := [], nodePeersChanges := 2 ^ 53, nodePeersAbsolute := 0,
        nodeMaxPeersGauge := 50 }).metrics.nodePeersChanges = 2 ^ 53 ∧
    ¬ (updateNodeMetrics ⟨some { peers := [], peerCount := 0, MaxPeers := 50 }⟩
      .PeerEventTypeAdd
      { nodePeersGauge := [], nodePeersChanges := 2 ^ 53, nodePeersAbsolute := 0,
        nodeMaxPeersGauge := 50 }).metrics.nodePeersChanges = 2 ^ 53 + 1 := by
  decide

/-- C6, amended: with a server present, whenever `updateNodeMetrics` returns,
the churn metric is the `float64` sum of its prior value `p` and the Counter of
`computeMetrics`: `p` plus 1 for the event Add when `-2^53 ≤ p < 2^53`, `p`
minus 1 for the event Drop when `-2^53 < p ≤ 2^53`, and `p` itself for any
other event (`p` being a `float64`); `computeMetrics` returns the Counter 1, -1
and 0 respectively. -/
theorem updateNodeMetrics_churn (server : Server) (evType : PeerEventType) (m : Metrics)
    (hret : (updateNodeMetrics ⟨some server⟩ evType m).result ≠ none) :
    (updateNodeMetrics ⟨some server⟩ evType m).metrics.nodePeersChanges =
      float64 (m.nodePeersChanges + (computeMetrics server evType).1.Counter) ∧
    (evType = .PeerEventTypeAdd → -2 ^ 53 ≤ m.nodePeersChanges → m.nodePeersChanges < 2 ^ 53 →
      (updateNodeMetrics ⟨some server⟩ evType m).metrics.nodePeersChanges =
        m.nodePeersChanges + 1) ∧
    (evType = .PeerEventTypeDrop → -2 ^ 53 < m.nodePeersChanges → m.nodePeersChanges ≤ 2 ^ 53 →
      (updateNodeMetrics ⟨some server⟩ evType m).metrics.nodePeersChanges =
        m.nodePeersChanges - 1) ∧
    (evType ≠ .PeerEventTypeAdd → evType ≠ .PeerEventTypeDrop →
      float64 m.nodePeersChanges = m.nodePeersChanges →
      (updateNodeMetrics ⟨some server⟩ evType m).metrics.nodePeersChanges =
        m.nodePeersChanges) ∧
    (computeMetrics server .PeerEventTypeAdd).1.Counter = 1 ∧
    (computeMetrics server .PeerEventTypeDrop).1.Counter = -1 ∧
    (∀ other : PeerEventType, other ≠ .PeerEventTypeAdd → other ≠ .PeerEventTypeDrop →
      (computeMetrics server other).1.Counter = 0) := by
  have hdone : (countPeers server.Peers []).2 = true := by
    cases h : (countPeers server.Peers []).2 with
    | true => rfl
    | false => exact absurd (by rw [updateNodeMetrics_of_panic server evType m h]) hret
  rw [updateNodeMetrics_of_done server evType m hdone]
  refine ⟨rfl, ?_, ?_, ?_, rfl, rfl, ?_⟩
  · intro hev hlo hhi
    subst hev
    have hb : (m.nodePeersChanges + 1).natAbs ≤ 2 ^ 53 := by omega
    simpa [computeMetrics] using float64_of_le _ hb
  · intro hev hlo hhi
    subst hev
    have hb : (m.nodePeersChanges + -1).natAbs ≤ 2 ^ 53 := by omega
    have h := float64_of_le _ hb
    simp only [computeMetrics]
    rw [h]
    rfl
  · intro h1 h2 hfloat
    cases evType with
    | PeerEventTypeAdd => exact absurd rfl h1
    | PeerEventTypeDrop => exact absurd rfl h2
    | PeerEventTypeOther => simpa [computeMetrics] using hfloat
  · intro other h1 h2
    cases other with
    | PeerEventTypeAdd => exact absurd rfl h1
    | PeerEventTypeDrop => exact absurd rfl h2
    | PeerEventTypeOther => rfl

theorem updateNodeMetrics_churn_witness :
    (updateNodeMetrics ⟨some ⟨[⟨str "eth/1.0/linux/a"⟩, ⟨str "bad"⟩], 1, 50⟩⟩ .PeerEventTypeAdd
      ⟨[], 7, 1, 2⟩).result ≠ none ∧
    (updateNodeMetrics ⟨some ⟨[⟨str "eth/1.0/linux/a"⟩, ⟨str "bad"⟩], 1, 50⟩⟩ .PeerEventTypeAdd
      ⟨[], 7, 1, 2⟩).metrics.nodePeersChanges = 7 + 1 :=
  ⟨by decide,
   (updateNodeMetrics_churn ⟨[⟨str "eth/1.0/linux/a"⟩, ⟨str "bad"⟩], 1, 50⟩ .PeerEventTypeAdd
      ⟨[], 7, 1, 2⟩ (by decide)).2.1 rfl (by decide) (by decide)⟩

/-- C7: when the server of the node is absent, `updateNodeMetrics` returns the
error "p2p server is unavailable" for every event type and leaves the four
metrics as they were. -/
theorem updateNodeMetrics_no_server (evType : PeerEventType) (m : Metrics) :
    updateNodeMetrics ⟨none⟩ evType m =
      { result := some (some "p2p server is unavailable"), metrics := m } := by
  rfl

/-- C8: a defect of the code. With a server present whose one peer is named
`\xff/1/linux/x`, the name parses and `updateNodeMetrics` panics in `With`
instead of returning `nil`: the gauge vector has been reset and the three other
gauges have not been written. -/
theorem updateNodeMetrics_panics_on_invalid_label :
    (∃ labels, labelsFromNodeName badUtf8Name = .ok labels) ∧
    updateNodeMetrics ⟨some { peers := [⟨badUtf8Name⟩], peerCount := 1, MaxPeers := 50 }⟩
      .PeerEventTypeAdd
      { nodePeersGauge := [(⟨str "old", str "0.1", str "mac"⟩, 5)], nodePeersChanges := 7,
        nodePeersAbsolute := 1, nodeMaxPeersGauge := 2 } =
      { result := none,
        metrics := { nodePeersGauge := [], nodePeersChanges := 7, nodePeersAbsolute := 1,
                     nodeMaxPeersGauge := 2 } } :=
  ⟨⟨{ type := [0xFF], version := str "1", platform := str "linux" }, by decide⟩, by decide⟩

/-- C9, as stated, fails: with `MaxPeers = 2^53 + 1` the update returns `nil`
and the max-peers gauge holds `2^53`, the nearest `float64`, not `MaxPeers`. -/
theorem updateNodeMetrics_max_rounds :
    (updateNodeMetrics ⟨some { peers := [], peerCount := 0, MaxPeers := 2 ^ 53 + 1 }⟩
      .PeerEventTypeAdd
      { nodePeersGauge := [], nodePeersChanges := 0, nodePeersAbsolute := 0,
        nodeMaxPeersGauge := 0 }).result = some none ∧
    (updateNodeMetrics ⟨some { peers := [], peerCount := 0, MaxPeers := 2 ^ 53 + 1 }⟩
      .PeerEventTypeAdd
      { nodePeersGauge := [], nodePeersChanges := 0, nodePeersAbsolute := 0,
        nodeMaxPeersGauge := 0 }).metrics.nodeMaxPeersGauge = 2 ^ 53 ∧
    ¬ (updateNodeMetrics ⟨some { peers := [], peerCount := 0, MaxPeers := 2 ^ 53 + 1 }⟩
      .PeerEventTypeAdd
      { nodePeersGauge := [], nodePeersChanges := 0, nodePeersAbsolute := 0,
        nodeMaxPeersGauge := 0 }).metrics.nodeMaxPeersGauge =
      Server.MaxPeers { peers := [], peerCount := 0, MaxPeers := 2 ^ 53 + 1 } := by
  decide

/-- C9, amended: with a server present, whenever `updateNodeMetrics` returns,
the absolute-count gauge is the `float64` of the peer count of the server and
the max-peers gauge the `float64` of its `MaxPeers`, which are the peer count
and `MaxPeers` themselves when these are at most `2^53` in magnitude; both are
set, not accumulated: they are the same for every event type and every prior
metric state. -/
theorem updateNodeMetrics_absolute_max (server : Server) (evType : PeerEventType)
    (m : Metrics) (hret : (updateNodeMetrics ⟨some server⟩ evType m).result ≠ none) :
    (updateNodeMetrics ⟨some server⟩ evType m).metrics.nodePeersAbsolute =
      float64 server.PeerCount ∧
    (updateNodeMetrics ⟨some server⟩ evType m).metrics.nodeMaxPeersGauge =
      float64 server.MaxPeers ∧
    (-2 ^ 53 ≤ server.PeerCount → server.PeerCount ≤ 2 ^ 53 →
      (updateNodeMetrics ⟨some server⟩ evType m).metrics.nodePeersAbsolute =
        server.PeerCount) ∧
    (-2 ^ 53 ≤ server.MaxPeers → server.MaxPeers ≤ 2 ^ 53 →
      (updateNodeMetrics ⟨some server⟩ evType m).metrics.nodeMaxPeersGauge =
        server.MaxPeers) ∧
    (computeMetrics server evType).1.Absolute = float64 server.PeerCount ∧
    (computeMetrics server evType).1.Max = float64 server.MaxPeers ∧
    ∀ (evType2 : PeerEventType) (m2 : Metrics),
      (updateNodeMetrics ⟨some server⟩ evType2 m2).metrics.nodePeersAbsolute =
        (updateNodeMetrics ⟨some server⟩ evType m).metrics.nodePeersAbsolute ∧
      (updateNodeMetrics ⟨some server⟩ evType2 m2).metrics.nodeMaxPeersGauge =
        (updateNodeMetrics ⟨some server⟩ evType m).metrics.nodeMaxPeersGauge := by
  have hdone : (countPeers server.Peers []).2 = true := by
    cases h : (countPeers server.Peers []).2 with
    | true => rfl
    | false => exact absurd (by rw [updateNodeMetrics_of_panic server evType m h]) hret
  rw [updateNodeMetrics_of_done server evType m hdone]
  refine ⟨rfl, rfl, ?_, ?_, rfl, rfl, ?_⟩
  · intro hlo hhi
    exact float64_of_le _ (by omega)
  · intro hlo hhi
    exact float64_of_le _ (by omega)
  · intro evType2 m2
    rw [updateNodeMetrics_of_done server evType2 m2 hdone]
    exact ⟨rfl, rfl⟩

theorem updateNodeMetrics_absolute_max_witness :
    (updateNodeMetrics ⟨some ⟨[⟨str "eth/1.0/linux/a"⟩, ⟨str "bad"⟩], 2, 50⟩⟩
      .PeerEventTypeDrop ⟨[], 7, 1, 3⟩).result ≠ none ∧
    (updateNodeMetrics ⟨some ⟨[⟨str "eth/1.0/linux/a"⟩, ⟨str "bad"⟩], 2, 50⟩⟩
      .PeerEventTypeDrop ⟨[], 7, 1, 3⟩).metrics.nodePeersAbsolute = 2 ∧
    (updateNodeMetrics ⟨some ⟨[⟨str "eth/1.0/linux/a"⟩, ⟨str "bad"⟩], 2, 50⟩⟩
      .PeerEventTypeDrop ⟨[], 7, 1, 3⟩).metrics.nodeMaxPeersGauge = 50 :=
  ⟨by decide,
   (updateNodeMetrics_absolute_max ⟨[⟨str "eth/1.0/linux/a"⟩, ⟨str "bad"⟩], 2, 50⟩
      .PeerEventTypeDrop ⟨[], 7, 1, 3⟩ (by decide)).2.2.1 (by decide) (by decide),
   (updateNodeMetrics_absolute_max ⟨[⟨str "eth/1.0/linux/a"⟩, ⟨str "bad"⟩], 2, 50⟩
      .PeerEventTypeDrop ⟨[], 7, 1, 3⟩ (by decide)).2.2.2.1 (by decide) (by decide)⟩

/-- C10: `labelsFromNodeName` succeeds exactly when the name contains 2 or 3
bytes `/`; the names "//" and "///" are accepted with empty type and platform
labels; the segment count is never 0, the empty name has the one segment ""
and is rejected. -/
theorem labelsFromNodeName_ok_iff (name : GoString) :
    ((∃ labels, labelsFromNodeName name = .ok labels) ↔
      (name.count slash = 2 ∨ name.count slash = 3)) ∧
    (Split name).length ≠ 0 ∧
    labelsFromNodeName (str "//") =
      .ok { type := str "", version := str "unknown", platform := str "" } ∧
    labelsFromNodeName (str "///") =
      .ok { type := str "", version := str "", platform := str "" } ∧
    Split (str "") = [str ""] ∧
    labelsFromNodeName (str "") = .error "wrong number of segments in name" := by
  refine ⟨?_, ?_, by decide, by decide, by decide, by decide⟩
  · have hl := Split_length name
    by_cases h4 : (Split name).length = 4
    · have hc : name.count slash = 3 := by omega
      simp [labelsFromNodeName, h4, hc]
    · by_cases h3 : (Split name).length = 3
      · have hc : name.count slash = 2 := by omega
        simp [labelsFromNodeName, h3, hc]
      · have hc2 : ¬ name.count slash = 2 := by omega
        have hc3 : ¬ name.count slash = 3 := by omega
        simp [labelsFromNodeName, h4, h3, hc2, hc3]
  · rw [Split_length]
    omega

end NodeMetrics
